import Mathlib

/-!
Verification of the keyword-region detection, covering and numbering pipeline
of this repository (the function `detectar_e_destacar_palavras` in `1.py`,
together with the token filter of `detectar_e_cobrir_texto` and the batch
driver `processar_imagens`).

The Python source is shallowly embedded: OCR tokens, word boxes and match
regions become structures; the matching loops become structural recursions or
`List.range`-based scans; the PIL drawing calls become updates of a pixel
function `Int → Int → Color`; the per-image `try/except` becomes an `Except`
input.  Python `//` on integers is floor division, embedded as `Int.fdiv`;
Python substring test `a in b` is embedded as infix-of on character lists.
-/

namespace Anat

/-- Does `needle` occur as a contiguous sublist of `hay`?  (Scan every
suffix for a prefix match.) -/
def infixAux (needle : List Char) : List Char → Bool
  | [] => needle.isEmpty
  | h :: t => needle.isPrefixOf (h :: t) || infixAux needle t

/-- Python substring test `needle in hay` (both operands strings). -/
def strContains (hay needle : String) : Bool :=
  infixAux needle.toList hay.toList

/-- Python `str.lower()` (character-list implementation, so that concrete
instances compute inside the kernel). -/
def pyLower (s : String) : String :=
  String.mk (s.toList.map Char.toLower)

/-- Python `str.strip()`: drop leading and trailing whitespace. -/
def pyStrip (s : String) : String :=
  String.mk (((s.toList.dropWhile Char.isWhitespace).reverse.dropWhile
    Char.isWhitespace).reverse)

/-- Python `' ' in s` for the single space character. -/
def temEspaco (s : String) : Bool :=
  s.toList.contains ' '

/-- Helper for `pySplit`: `cur` is the reversed current word. -/
def pySplitAux (cur : List Char) : List Char → List String
  | [] => if cur.isEmpty then [] else [String.mk cur.reverse]
  | c :: rest =>
      if c.isWhitespace then
        if cur.isEmpty then pySplitAux [] rest
        else String.mk cur.reverse :: pySplitAux [] rest
      else pySplitAux (c :: cur) rest

/-- Python `str.split()` with no argument: split on whitespace runs,
dropping empty pieces. -/
def pySplit (s : String) : List String :=
  pySplitAux [] s.toList

/-- One raw OCR token, one index of the parallel arrays produced by
`pytesseract.image_to_data` (`text`, `conf`, `left`, `top`, `width`, `height`). -/
structure OcrToken where
  text : String
  conf : Int
  left : Int
  top : Int
  width : Int
  height : Int
deriving DecidableEq

/-- One entry of `coordenadas_palavras` in `detectar_e_destacar_palavras`:
the trimmed token text and its pixel box. -/
structure WordBox where
  texto : String
  x : Int
  y : Int
  largura : Int
  altura : Int
deriving DecidableEq

/-- Fallback word box; the source never reads an out-of-range index (the
window scan is bounded), so this value is never observed by the theorems. -/
def padrao : WordBox := ⟨"", 0, 0, 0, 0⟩

/-- A match region `[x_min, y_min, x_max, y_max]` as computed by the source. -/
structure Region where
  xmin : Int
  ymin : Int
  xmax : Int
  ymax : Int
deriving DecidableEq

/-- The triple returned by `detectar_e_destacar_palavras`:
`(success, palavras_encontradas, texto_encontrado)`. -/
structure Saida where
  success : Bool
  ocorrencias : Nat
  encontrou : Bool
deriving DecidableEq

/-- The token filter of `detectar_e_cobrir_texto` (`1.py` lines 131-141):
a block is covered exactly when `conf > 0` and the trimmed text is nonempty.
The list returned is the list of covered tokens, in input order. -/
def blocosCobertos : List OcrToken → List OcrToken
  | [] => []
  | d :: rest =>
      if d.conf > 0 ∧ (pyStrip d.text) ≠ "" then d :: blocosCobertos rest
      else blocosCobertos rest

/-- Construction of `coordenadas_palavras` (`1.py` lines 405-414): keep
tokens with `conf > 30` and nonempty trimmed text, storing the trimmed text
and the box. -/
def mkCoordenadas : List OcrToken → List WordBox
  | [] => []
  | d :: rest =>
      if d.conf > 30 ∧ (pyStrip d.text) ≠ "" then
        ⟨(pyStrip d.text), d.left, d.top, d.width, d.height⟩ :: mkCoordenadas rest
      else mkCoordenadas rest

/-- The per-token matching test of the source: the (lower-cased) phrase token
is a Python substring of the lower-cased box text. -/
def tokenMatches (tok : String) (c : WordBox) : Bool :=
  strContains (pyLower c.texto) tok

/-- The inner loop of the multi-word branch (`1.py` lines 427-436): the window
starting at `i` matches when every phrase token is a substring of the
corresponding box text. -/
def windowOk (tokens : List String) (coords : List WordBox) (i : Nat) : Bool :=
  (List.range tokens.length).all fun j =>
    tokenMatches (tokens.getD j "") (coords.getD (i + j) padrao)

/-- The indices at which the multi-word window scan succeeds; the outer loop
`for i in range(len(coordenadas_palavras) - len(palavras_da_frase) + 1)`
becomes `List.range (coords.length + 1 - tokens.length)` (empty when the
phrase is longer than the sequence, as in Python). -/
def multiStarts (tokens : List String) (coords : List WordBox) : List Nat :=
  (List.range (coords.length + 1 - tokens.length)).filter (windowOk tokens coords)

/-- Python `min` over a nonempty list of ints (the `[]` case is unreachable in
the source: `min` over an empty generator raises there). -/
def listMinI : List Int → Int
  | [] => 0
  | a :: l => l.foldl min a

/-- Python `max` over a nonempty list of ints. -/
def listMaxI : List Int → Int
  | [] => 0
  | a :: l => l.foldl max a

/-- The merged rectangle of a matched window (`1.py` lines 439-443):
left edge of the first box, right edge of the last box, min top and max
bottom over the window. -/
def fraseBounds (coords : List WordBox) (i k : Nat) : Region :=
  let janela := (List.range k).map fun j => coords.getD (i + j) padrao
  { xmin := (coords.getD i padrao).x
  , ymin := listMinI (janela.map fun c => c.y)
  , xmax := (coords.getD (i + k - 1) padrao).x + (coords.getD (i + k - 1) padrao).largura
  , ymax := listMaxI (janela.map fun c => c.y + c.altura) }

/-- All regions emitted by the multi-word branch for one phrase, in scan
order. -/
def multiRegions (tokens : List String) (coords : List WordBox) : List Region :=
  (multiStarts tokens coords).map fun i => fraseBounds coords i tokens.length

/-- The rectangle of a single-word match (`1.py` lines 473-481): exactly the
box. -/
def boxRect (c : WordBox) : Region :=
  ⟨c.x, c.y, c.x + c.largura, c.y + c.altura⟩

/-- The single-word branch (`1.py` lines 469-501): one region per box whose
lower-cased text contains the phrase, in box order. -/
def singleRegions (p : String) (coords : List WordBox) : List Region :=
  match coords with
  | [] => []
  | c :: rest =>
      if tokenMatches p c then boxRect c :: singleRegions p rest
      else singleRegions p rest

/-- Dispatch of one (already lower-cased) key phrase (`1.py` line 422):
the multi-word branch runs iff the phrase contains a space character. -/
def processPhrase (p : String) (coords : List WordBox) : List Region :=
  if temEspaco p then multiRegions (pySplit p) coords
  else singleRegions p coords

/-- All regions emitted for the whole phrase list, in emission order
(phrase list order, then scan order). -/
def allRegions (phrases : List String) (coords : List WordBox) : List Region :=
  match phrases with
  | [] => []
  | p :: rest => processPhrase p coords ++ allRegions rest coords

/-! ## Drawing model

PIL `ImageDraw.rectangle([x0,y0,x1,y1], fill=c)` paints every pixel with
`x0 ≤ x ≤ x1` and `y0 ≤ y ≤ y1`; with `outline=c, width=w` it paints the
stroke of that rectangle, `w` pixels deep, extending inward from the
boundary.  The image is a total pixel function (PIL clips out-of-canvas
draws; canvas bounds are irrelevant to the claims below). -/

/-- An RGB color. -/
abbrev Color := Int × Int × Int

/-- A pixel buffer. -/
abbrev Image := Int → Int → Color

/-- The erase color `(255, 255, 255)`. -/
def corBranca : Color := (255, 255, 255)

/-- The outline color `(255, 0, 0)`. -/
def corVermelha : Color := (255, 0, 0)

/-- The numbering color `(0, 0, 255)`. -/
def corAzul : Color := (0, 0, 255)

/-- PIL `ImageDraw.rectangle(xy, fill=c)`: both corners included. -/
def fillRect (x0 y0 x1 y1 : Int) (c : Color) (img : Image) : Image :=
  fun x y =>
    if x0 ≤ x ∧ x ≤ x1 ∧ y0 ≤ y ∧ y ≤ y1 then c else img x y

/-- PIL `ImageDraw.rectangle(xy, outline=c, width=w)`: the stroke extends `w`
pixels inward from the rectangle boundary. -/
def outlineRect (x0 y0 x1 y1 w : Int) (c : Color) (img : Image) : Image :=
  fun x y =>
    if (x0 ≤ x ∧ x ≤ x1 ∧ y0 ≤ y ∧ y ≤ y1) ∧
       (x ≤ x0 + w - 1 ∨ x1 - w + 1 ≤ x ∨ y ≤ y0 + w - 1 ∨ y1 - w + 1 ≤ y) then c
    else img x y

/-- Per-region drawing (`1.py` lines 445-467 and 478-500): when
`ocultar` is set, first the opaque white fill of the region, then — always —
the red outline at the bounds offset outward by `espessura = 2`, stroke
width 3. -/
def drawRegion (ocultar : Bool) (r : Region) (img : Image) : Image :=
  outlineRect (r.xmin - 2) (r.ymin - 2) (r.xmax + 2) (r.ymax + 2) 3 corVermelha
    (if ocultar then fillRect r.xmin r.ymin r.xmax r.ymax corBranca img else img)

/-- One entry of the `destaques` list: center point and extents of a covered
region (`1.py` lines 452-459 and 485-492). -/
structure Destaque where
  x : Int
  y : Int
  largura : Int
  altura : Int
deriving DecidableEq

/-- The `destaques` entry recorded for a region; in the single-word branch
the source records `x + largura // 2`, in the multi-word branch
`x_min + (x_max - x_min) // 2` — identical, since for a single-word region
`xmax - xmin` is the box width.  Python `//` is floor division (`Int.fdiv`). -/
def destaqueOf (r : Region) : Destaque :=
  { x := r.xmin + (r.xmax - r.xmin).fdiv 2
  , y := r.ymin + (r.ymax - r.ymin).fdiv 2
  , largura := r.xmax - r.xmin
  , altura := r.ymax - r.ymin }

/-- The `destaques` list: one entry per emitted region, in emission order,
recorded only when both `ocultar_palavras` and `numerar_palavras` hold. -/
def destaques (ocultar numerar : Bool) (rs : List Region) : List Destaque :=
  if ocultar && numerar then rs.map destaqueOf else []

/-- The `tamanho_fonte` computation (`1.py` lines 509-510): `min(largura, altura) // 2`,
then at least 12. -/
def tamanhoFonte (d : Destaque) : Int :=
  max ((min d.largura d.altura).fdiv 2) 12

/-- One numbering draw call (`1.py` lines 506-539).  `fonte` is the
best-effort font resource: `some medida` measures a string at a given
`tamanho_fonte` (the three measuring tiers of the source collapse into this
abstract measure; the heuristic tier is the only one that reads the size).
With a font the label start is the center minus half the measured extent,
clamped to at least 2px right of / below the region's top-left corner;
without a font it is a fixed small offset from the center. -/
def numberCallFor (fonte : Option (String → Int → Int × Int)) (d : Destaque)
    (n : Nat) : (Int × Int) × String :=
  let s := Nat.repr n
  match fonte with
  | some medida =>
      let tf := tamanhoFonte d
      let m := medida s tf
      ((max (d.x - m.1.fdiv 2) (d.x - d.largura.fdiv 2 + 2),
        max (d.y - m.2.fdiv 2) (d.y - d.altura.fdiv 2 + 2)), s)
  | none => ((d.x - 5, d.y - 10), s)

/-- The loop `for i, destaque in enumerate(destaques, 1)`: the draw calls from
counter `n` on. -/
def numberingFrom (fonte : Option (String → Int → Int × Int)) (n : Nat) :
    List Destaque → List ((Int × Int) × String)
  | [] => []
  | d :: rest => numberCallFor fonte d n :: numberingFrom fonte (n + 1) rest

/-- The numbering overlay (`1.py` lines 503-539): guarded by
`if numerar_palavras and destaques`, then a 1-based enumeration. -/
def numberingCalls (fonte : Option (String → Int → Int × Int))
    (ds : List Destaque) : List ((Int × Int) × String) :=
  if ds.isEmpty then [] else numberingFrom fonte 1 ds

/-! ## Top-level function and batch driver -/

/-- The `texto_reconstruido` string (`1.py` lines 401-407): the trimmed texts of the
kept word boxes, each followed by one space. -/
def textoReconstruido (coords : List WordBox) : String :=
  coords.foldl (fun acc c => acc ++ c.texto ++ " ") ""

/-- The body of `detectar_e_destacar_palavras` (`1.py` lines 346-546) after
image decoding.  Inputs: `textoCompleto` is the separate whole-image OCR
string (`pytesseract.image_to_string`), `dados` the parallel-array OCR
tokens (`image_to_data`), `palavrasChave` the raw key phrases, the
`ocultar`/`numerar` flags, the optional font measure, the external glyph
rasteriser `render` for `ImageDraw.text`, and the decoded image.  Output:
the returned triple, the final image, and the numbering draw calls made. -/
def detectar (textoCompleto : String) (dados : List OcrToken)
    (palavrasChave : List String) (ocultar numerar : Bool)
    (fonte : Option (String → Int → Int × Int))
    (render : (Int × Int) × String → Image → Image) (img0 : Image) :
    Saida × Image × List ((Int × Int) × String) :=
  let chaves := palavrasChave.map pyLower
  if chaves.any (fun p => strContains (pyLower textoCompleto) p) then
    let coords := mkCoordenadas dados
    let rs := allRegions chaves coords
    let img1 := rs.foldl (fun im r => drawRegion ocultar r im) img0
    let ds := destaques ocultar numerar rs
    let calls := numberingCalls fonte ds
    let img2 := calls.foldl (fun im c => render c im) img1
    (⟨true, rs.length, true⟩, img2, calls)
  else
    (⟨true, 0, false⟩, img0, [])

/-- The data an image contributes once loading, decoding and OCR succeed. -/
structure ImageData where
  textoCompleto : String
  dados : List OcrToken

/-- The `try/except` wrapping the whole body (`1.py` lines 350, 548-550):
any image-load / decode / OCR failure is caught there and yields
`(False, 0, False)`; nothing propagates. -/
def detectarSafe (input : Except String (ImageData × Image))
    (palavrasChave : List String) (ocultar numerar : Bool)
    (fonte : Option (String → Int → Int × Int))
    (render : (Int × Int) × String → Image → Image) :
    Saida × Option Image :=
  match input with
  | .error _ => (⟨false, 0, false⟩, none)
  | .ok (d, img) =>
      let r := detectar d.textoCompleto d.dados palavrasChave ocultar numerar fonte render img
      (r.1, some r.2.1)

/-- The deletion decision of `processar_imagens` (`1.py` lines 702-709):
delete the saved output iff the delete-non-matching option is on and no
keyword was reported present. -/
def deveDeletar (deletarSemDestaque : Bool) (encontrou : Bool) : Bool :=
  !encontrou && deletarSemDestaque

/-- The batch loop of `processar_imagens` (`1.py` lines 651-732): every
image is processed in order through the exception-safe call; a failure only
affects its own entry. -/
def processarImagens (inputs : List (Except String (ImageData × Image)))
    (palavrasChave : List String) (ocultar numerar : Bool)
    (fonte : Option (String → Int → Int × Int))
    (render : (Int × Int) × String → Image → Image) : List Saida :=
  inputs.map fun input =>
    (detectarSafe input palavrasChave ocultar numerar fonte render).1

/-- The `imagens_com_erro` counter of the batch loop. -/
def imagensComErro (saidas : List Saida) : Nat :=
  (saidas.filter (fun s => !s.success)).length

/-! ## Concrete fixtures for witnesses and counterexamples -/

/-- An all-black starting image. -/
def imgPreta : Image := fun _ _ => (0, 0, 0)

/-- A glyph rasteriser that paints nothing (text drawing details are
external to the claims that use it). -/
def renderNada : (Int × Int) × String → Image → Image := fun _ im => im

/-- Fallback region value for `getD`; never observed in-range. -/
def padraoRegiao : Region := ⟨0, 0, 0, 0⟩

/-- Fallback destaque value for `getD`; never observed in-range. -/
def padraoDestaque : Destaque := destaqueOf padraoRegiao

/-! ## Helper lemmas -/

theorem getD_mem {α : Type} (l : List α) (n : Nat) (d : α) (h : n < l.length) :
    l.getD n d ∈ l := by
  induction l generalizing n with
  | nil => simp at h
  | cons a t ih =>
      cases n with
      | zero => simp [List.getD]
      | succ m =>
          simp only [List.getD_cons_succ]
          exact List.mem_cons_of_mem a (ih m (by simpa using h))

theorem getD_map {α β : Type} (f : α → β) (l : List α) (n : Nat) (d : α) :
    (l.map f).getD n (f d) = f (l.getD n d) := by
  induction l generalizing n with
  | nil => simp [List.getD]
  | cons a t ih =>
      cases n with
      | zero => simp [List.getD]
      | succ m => simp only [List.map_cons, List.getD_cons_succ]; exact ih m

theorem foldl_min_le_init (t : List Int) (a : Int) : t.foldl min a ≤ a := by
  induction t generalizing a with
  | nil => simp
  | cons b t ih => exact le_trans (ih (min a b)) (min_le_left a b)

theorem foldl_min_le_mem (t : List Int) (a x : Int) (hx : x ∈ t) :
    t.foldl min a ≤ x := by
  induction t generalizing a with
  | nil => simp at hx
  | cons b t ih =>
      rcases List.mem_cons.mp hx with h | h
      · subst h
        exact le_trans (foldl_min_le_init t (min a x)) (min_le_right a x)
      · exact ih (min a b) h

theorem foldl_min_mem (t : List Int) (a : Int) :
    t.foldl min a = a ∨ t.foldl min a ∈ t := by
  induction t generalizing a with
  | nil => left; rfl
  | cons b t ih =>
      rcases ih (min a b) with h | h
      · rcases min_choice a b with hm | hm
        · left; simpa [hm] using h
        · right; rw [List.foldl_cons, h, hm]; exact List.mem_cons_self b t
      · right; exact List.mem_cons_of_mem b h

theorem listMinI_spec (a : Int) (t : List Int) :
    listMinI (a :: t) ∈ a :: t ∧ ∀ x ∈ a :: t, listMinI (a :: t) ≤ x := by
  constructor
  · rcases foldl_min_mem t a with h | h
    · simp [listMinI, h]
    · simp [listMinI]; right; exact h
  · intro x hx
    rcases List.mem_cons.mp hx with h | h
    · subst h; exact foldl_min_le_init t x
    · exact foldl_min_le_mem t a x h

theorem foldl_max_ge_init (t : List Int) (a : Int) : a ≤ t.foldl max a := by
  induction t generalizing a with
  | nil => simp
  | cons b t ih => exact le_trans (le_max_left a b) (ih (max a b))

theorem foldl_max_ge_mem (t : List Int) (a x : Int) (hx : x ∈ t) :
    x ≤ t.foldl max a := by
  induction t generalizing a with
  | nil => simp at hx
  | cons b t ih =>
      rcases List.mem_cons.mp hx with h | h
      · subst h
        exact le_trans (le_max_right a x) (foldl_max_ge_init t (max a x))
      · exact ih (max a b) h

theorem foldl_max_mem (t : List Int) (a : Int) :
    t.foldl max a = a ∨ t.foldl max a ∈ t := by
  induction t generalizing a with
  | nil => left; rfl
  | cons b t ih =>
      rcases ih (max a b) with h | h
      · rcases max_choice a b with hm | hm
        · left; simpa [hm] using h
        · right; rw [List.foldl_cons, h, hm]; exact List.mem_cons_self b t
      · right; exact List.mem_cons_of_mem b h

theorem listMaxI_spec (a : Int) (t : List Int) :
    listMaxI (a :: t) ∈ a :: t ∧ ∀ x ∈ a :: t, x ≤ listMaxI (a :: t) := by
  constructor
  · rcases foldl_max_mem t a with h | h
    · simp [listMaxI, h]
    · simp [listMaxI]; right; exact h
  · intro x hx
    rcases List.mem_cons.mp hx with h | h
    · subst h; exact foldl_max_ge_init t x
    · exact foldl_max_ge_mem t a x h

theorem singleRegions_eq (p : String) (coords : List WordBox) :
    singleRegions p coords = (coords.filter (tokenMatches p)).map boxRect := by
  induction coords with
  | nil => rfl
  | cons c rest ih =>
      by_cases h : tokenMatches p c = true
      · simp [singleRegions, List.filter_cons, h, ih]
      · simp [singleRegions, List.filter_cons, h, ih]

theorem mem_singleRegions (p : String) (coords : List WordBox) (r : Region) :
    r ∈ singleRegions p coords ↔
      ∃ c ∈ coords, tokenMatches p c = true ∧ r = boxRect c := by
  rw [singleRegions_eq]
  constructor
  · intro h
    rcases List.mem_map.mp h with ⟨c, hc, hr⟩
    rcases List.mem_filter.mp hc with ⟨hc1, hc2⟩
    exact ⟨c, hc1, hc2, hr.symm⟩
  · rintro ⟨c, hc, hm, rfl⟩
    exact List.mem_map.mpr ⟨c, List.mem_filter.mpr ⟨hc, hm⟩, rfl⟩

theorem windowOk_iff (tokens : List String) (coords : List WordBox) (i : Nat) :
    windowOk tokens coords i = true ↔
      ∀ j : Nat, j < tokens.length →
        tokenMatches (tokens.getD j "") (coords.getD (i + j) padrao) = true := by
  simp only [windowOk, List.all_eq_true, List.mem_range]

theorem mem_multiStarts (tokens : List String) (coords : List WordBox) (i : Nat) :
    i ∈ multiStarts tokens coords ↔
      i + tokens.length ≤ coords.length ∧ windowOk tokens coords i = true := by
  simp only [multiStarts, List.mem_filter, List.mem_range]
  constructor
  · rintro ⟨h1, h2⟩; exact ⟨by omega, h2⟩
  · rintro ⟨h1, h2⟩; exact ⟨by omega, h2⟩

theorem mem_multiRegions (tokens : List String) (coords : List WordBox) (r : Region) :
    r ∈ multiRegions tokens coords ↔
      ∃ i ∈ multiStarts tokens coords, r = fraseBounds coords i tokens.length := by
  simp only [multiRegions, List.mem_map]
  constructor
  · rintro ⟨i, hi, rfl⟩; exact ⟨i, hi, rfl⟩
  · rintro ⟨i, hi, rfl⟩; exact ⟨i, hi, rfl⟩

theorem listMinI_spec_ne (l : List Int) (hl : l ≠ []) :
    listMinI l ∈ l ∧ ∀ x ∈ l, listMinI l ≤ x := by
  cases l with
  | nil => exact absurd rfl hl
  | cons a t => exact listMinI_spec a t

theorem listMaxI_spec_ne (l : List Int) (hl : l ≠ []) :
    listMaxI l ∈ l ∧ ∀ x ∈ l, x ≤ listMaxI l := by
  cases l with
  | nil => exact absurd rfl hl
  | cons a t => exact listMaxI_spec a t

theorem fraseBounds_spec (coords : List WordBox) (i k : Nat) (hk : 1 ≤ k) :
    (fraseBounds coords i k).xmin = (coords.getD i padrao).x ∧
    (fraseBounds coords i k).xmax =
      (coords.getD (i + k - 1) padrao).x + (coords.getD (i + k - 1) padrao).largura ∧
    (∀ j : Nat, j < k → (fraseBounds coords i k).ymin ≤ (coords.getD (i + j) padrao).y) ∧
    (∃ j : Nat, j < k ∧ (fraseBounds coords i k).ymin = (coords.getD (i + j) padrao).y) ∧
    (∀ j : Nat, j < k →
      (coords.getD (i + j) padrao).y + (coords.getD (i + j) padrao).altura ≤
        (fraseBounds coords i k).ymax) ∧
    (∃ j : Nat, j < k ∧
      (fraseBounds coords i k).ymax =
        (coords.getD (i + j) padrao).y + (coords.getD (i + j) padrao).altura) := by
  have hne : ∀ f : WordBox → Int,
      ((List.range k).map fun j => f (coords.getD (i + j) padrao)) ≠ [] := by
    intro f h
    have := congrArg List.length h
    simp [List.length_map, List.length_range] at this
    omega
  have hymin :
      (fraseBounds coords i k).ymin =
        listMinI ((List.range k).map fun j => (coords.getD (i + j) padrao).y) := by
    simp only [fraseBounds]
    rw [List.map_map]
    rfl
  have hymax :
      (fraseBounds coords i k).ymax =
        listMaxI ((List.range k).map fun j =>
          (coords.getD (i + j) padrao).y + (coords.getD (i + j) padrao).altura) := by
    simp only [fraseBounds]
    rw [List.map_map]
    rfl
  have h1 := listMinI_spec_ne
    ((List.range k).map fun j => (coords.getD (i + j) padrao).y)
    (hne (fun c => c.y))
  have h2 := listMaxI_spec_ne
    ((List.range k).map fun j =>
      (coords.getD (i + j) padrao).y + (coords.getD (i + j) padrao).altura)
    (hne (fun c => c.y + c.altura))
  refine ⟨rfl, rfl, ?_, ?_, ?_, ?_⟩
  · intro j hj
    rw [hymin]
    exact h1.2 _ (List.mem_map.mpr ⟨j, List.mem_range.mpr hj, rfl⟩)
  · rw [hymin]
    rcases List.mem_map.mp h1.1 with ⟨j, hj, hv⟩
    exact ⟨j, List.mem_range.mp hj, hv.symm⟩
  · intro j hj
    rw [hymax]
    exact h2.2 _ (List.mem_map.mpr ⟨j, List.mem_range.mpr hj, rfl⟩)
  · rw [hymax]
    rcases List.mem_map.mp h2.1 with ⟨j, hj, hv⟩
    exact ⟨j, List.mem_range.mp hj, hv.symm⟩

theorem mem_allRegions (phrases : List String) (coords : List WordBox) (r : Region) :
    r ∈ allRegions phrases coords ↔
      ∃ p ∈ phrases, r ∈ processPhrase p coords := by
  induction phrases with
  | nil => simp [allRegions]
  | cons p rest ih =>
      simp only [allRegions, List.mem_append, ih, List.mem_cons]
      constructor
      · rintro (h | ⟨q, hq, hr⟩)
        · exact ⟨p, Or.inl rfl, h⟩
        · exact ⟨q, Or.inr hq, hr⟩
      · rintro ⟨q, hq | hq, hr⟩
        · subst hq; exact Or.inl hr
        · exact Or.inr ⟨q, hq, hr⟩

theorem foldl_take_succ {α β : Type} (f : β → α → β) (l : List α) (b : β)
    (n : Nat) (d : α) (hn : n < l.length) :
    (l.take (n + 1)).foldl f b = f ((l.take n).foldl f b) (l.getD n d) := by
  induction l generalizing n b with
  | nil => simp at hn
  | cons a t ih =>
      cases n with
      | zero => simp [List.getD]
      | succ m =>
          simp only [List.take_succ_cons, List.foldl_cons, List.getD_cons_succ]
          exact ih (f b a) m (by simpa using hn)

theorem drawRegion_inside (r : Region) (im : Image) (x y : Int)
    (h1 : r.xmin < x) (h2 : x < r.xmax) (h3 : r.ymin < y) (h4 : y < r.ymax) :
    drawRegion true r im x y = corBranca := by
  simp only [drawRegion, outlineRect, fillRect, if_true]
  rw [if_neg (by omega), if_pos (by omega)]

theorem drawRegion_band (r : Region) (im : Image) (x y : Int)
    (hin : r.xmin - 2 ≤ x ∧ x ≤ r.xmax + 2 ∧ r.ymin - 2 ≤ y ∧ y ≤ r.ymax + 2)
    (hband : x ≤ r.xmin ∨ r.xmax ≤ x ∨ y ≤ r.ymin ∨ r.ymax ≤ y) :
    drawRegion true r im x y = corVermelha := by
  simp only [drawRegion, outlineRect, if_true]
  rw [if_pos (by omega)]

theorem numberingFrom_length (fonte : Option (String → Int → Int × Int))
    (n : Nat) (ds : List Destaque) :
    (numberingFrom fonte n ds).length = ds.length := by
  induction ds generalizing n with
  | nil => rfl
  | cons d rest ih => simp [numberingFrom, ih]

theorem numberingFrom_getElem (fonte : Option (String → Int → Int × Int))
    (n : Nat) (ds : List Destaque) (i : Nat) (hi : i < ds.length) :
    (numberingFrom fonte n ds)[i]? =
      some (numberCallFor fonte (ds.getD i padraoDestaque) (n + i)) := by
  induction ds generalizing n i with
  | nil => simp at hi
  | cons d rest ih =>
      cases i with
      | zero => simp [numberingFrom, List.getD]
      | succ m =>
          simp only [numberingFrom, List.getElem?_cons_succ, List.getD_cons_succ]
          rw [ih (n + 1) m (by simpa using hi)]
          congr 2
          omega

/-! ## Claim theorems -/

/-- C1: for every WordBox sequence and every multi-word key phrase of `k`
lower-cased tokens, the matcher emits a MatchRegion starting at index `i`
iff the boxes at indices `[i, i+k)` all exist and, for each `j < k`, phrase
token `j` is a substring of the lower-cased text of box `i+j`; no region
starts at any `i` with `i + k > len`; and each emitted region runs from the
first matched box's left edge to the last matched box's right edge, with
top the minimum top and bottom the maximum bottom over the `k` boxes. -/
theorem claim1_multiword_scan (p : String) (coords : List WordBox)
    (tokens : List String) (ht : tokens = pySplit p)
    (hp : temEspaco p = true) (hk : 1 ≤ tokens.length) :
    processPhrase p coords = multiRegions tokens coords ∧
    (∀ i : Nat,
      i ∈ multiStarts tokens coords ↔
        (i + tokens.length ≤ coords.length ∧
         ∀ j : Nat, j < tokens.length →
           strContains (pyLower (coords.getD (i + j) padrao).texto)
             (tokens.getD j "") = true)) ∧
    (∀ i ∈ multiStarts tokens coords, i + tokens.length ≤ coords.length) ∧
    (∀ i ∈ multiStarts tokens coords,
      (fraseBounds coords i tokens.length).xmin = (coords.getD i padrao).x ∧
      (fraseBounds coords i tokens.length).xmax =
        (coords.getD (i + tokens.length - 1) padrao).x +
          (coords.getD (i + tokens.length - 1) padrao).largura ∧
      (∀ j : Nat, j < tokens.length →
        (fraseBounds coords i tokens.length).ymin ≤ (coords.getD (i + j) padrao).y) ∧
      (∃ j : Nat, j < tokens.length ∧
        (fraseBounds coords i tokens.length).ymin = (coords.getD (i + j) padrao).y) ∧
      (∀ j : Nat, j < tokens.length →
        (coords.getD (i + j) padrao).y + (coords.getD (i + j) padrao).altura ≤
          (fraseBounds coords i tokens.length).ymax) ∧
      (∃ j : Nat, j < tokens.length ∧
        (fraseBounds coords i tokens.length).ymax =
          (coords.getD (i + j) padrao).y + (coords.getD (i + j) padrao).altura)) := by
  subst ht
  refine ⟨by simp [processPhrase, hp], ?_, ?_, ?_⟩
  · intro i
    rw [mem_multiStarts, windowOk_iff]
    exact Iff.rfl
  · intro i hi
    exact ((mem_multiStarts _ _ _).mp hi).1
  · intro i hi
    exact fraseBounds_spec coords i _ hk

theorem claim1_witness :
    processPhrase "ab cd" [⟨"xaby", 1, 2, 3, 4⟩, ⟨"cdz", 5, 6, 7, 8⟩] =
      multiRegions (pySplit "ab cd") [⟨"xaby", 1, 2, 3, 4⟩, ⟨"cdz", 5, 6, 7, 8⟩] ∧
    0 ∈ multiStarts (pySplit "ab cd") [⟨"xaby", 1, 2, 3, 4⟩, ⟨"cdz", 5, 6, 7, 8⟩] :=
  have h := claim1_multiword_scan "ab cd" [⟨"xaby", 1, 2, 3, 4⟩, ⟨"cdz", 5, 6, 7, 8⟩]
    (pySplit "ab cd") rfl (by decide) (by decide)
  ⟨h.1, (h.2.1 0).mpr (by decide)⟩

/-- C2: for every WordBox sequence and every single-word key phrase `P`,
the number of emitted MatchRegions equals the number of WordBoxes whose
lower-cased text contains `P` as a substring, and each emitted region is
exactly the rectangle of one such box (and every such box yields its
region). -/
theorem claim2_singleword_count (p : String) (coords : List WordBox)
    (hp : temEspaco p = false) :
    processPhrase p coords = singleRegions p coords ∧
    (processPhrase p coords).length =
      coords.countP (fun c => strContains (pyLower c.texto) p) ∧
    (∀ r : Region, r ∈ processPhrase p coords ↔
      ∃ c ∈ coords, strContains (pyLower c.texto) p = true ∧ r = boxRect c) := by
  have hpp : processPhrase p coords = singleRegions p coords := by
    simp [processPhrase, hp]
  refine ⟨hpp, ?_, ?_⟩
  · rw [hpp, singleRegions_eq, List.length_map, List.countP_eq_length_filter]
    rfl
  · intro r
    rw [hpp]
    exact mem_singleRegions p coords r

theorem claim2_witness :
    (processPhrase "ti" [⟨"Tibia", 1, 2, 3, 4⟩, ⟨"Femur", 5, 6, 7, 8⟩]).length =
      ([⟨"Tibia", 1, 2, 3, 4⟩, ⟨"Femur", 5, 6, 7, 8⟩] : List WordBox).countP
        (fun c => strContains (pyLower c.texto) "ti") :=
  (claim2_singleword_count "ti" [⟨"Tibia", 1, 2, 3, 4⟩, ⟨"Femur", 5, 6, 7, 8⟩]
    (by decide)).2.1

/-- C3 (amended): the full-text gate tests the separately OCR'd whole-image
string (`pytesseract.image_to_string`), not the space-joined concatenation
of the WordBox texts.  If no lower-cased key phrase is a substring of that
lower-cased whole-image string, the function returns immediately: zero
occurrences, `found = false`, the image untouched and no numbering draw
calls. -/
theorem claim3_gate_amended (textoCompleto : String) (dados : List OcrToken)
    (palavrasChave : List String) (ocultar numerar : Bool)
    (fonte : Option (String → Int → Int × Int))
    (render : (Int × Int) × String → Image → Image) (img : Image)
    (h : ∀ p ∈ palavrasChave, strContains (pyLower textoCompleto) (pyLower p) = false) :
    detectar textoCompleto dados palavrasChave ocultar numerar fonte render img =
      (⟨true, 0, false⟩, img, []) := by
  have hany : (palavrasChave.map pyLower).any
      (fun p => strContains (pyLower textoCompleto) p) = false := by
    rw [List.any_eq_false]
    intro q hq
    rcases List.mem_map.mp hq with ⟨p, hp, rfl⟩
    simp [h p hp]
  simp [detectar, hany]

theorem claim3_witness :
    detectar "abc" [] ["x"] false false none renderNada imgPreta =
      (⟨true, 0, false⟩, imgPreta, []) :=
  claim3_gate_amended "abc" [] ["x"] false false none renderNada imgPreta (by decide)

/-- C3 (counterexample to the claim as stated): with no word boxes at all
the space-joined box text is empty, so no key phrase is a substring of it —
the claim then demands `any_keyword_present = false` — yet when the separate
whole-image OCR string contains the phrase the function reports
`any_keyword_present = true`. -/
theorem claim3_counterexample :
    strContains (pyLower (textoReconstruido (mkCoordenadas ([] : List OcrToken)))) "a"
      = false ∧
    (detectar "a" [] ["a"] false false none renderNada imgPreta).1.encontrou = true ∧
    (detectar "a" [] ["a"] false false none renderNada imgPreta).1.ocorrencias = 0 :=
  ⟨by decide, by decide, by decide⟩

/-- C7: whenever the full-text gate passes, the function reports
`any_keyword_present = true` (and success) even if the box-level scan emits
zero regions; the output `(true, 0, true)` is reachable; and under the
delete-non-matching policy such an image is not deleted. -/
theorem claim7_gate_pass_keeps :
    (∀ (texto : String) (dados : List OcrToken) (chaves : List String)
        (oc nu : Bool) (fonte : Option (String → Int → Int × Int))
        (render : (Int × Int) × String → Image → Image) (img : Image),
      (chaves.map pyLower).any (fun p => strContains (pyLower texto) p) = true →
        (detectar texto dados chaves oc nu fonte render img).1.encontrou = true ∧
        (detectar texto dados chaves oc nu fonte render img).1.success = true ∧
        deveDeletar true
          (detectar texto dados chaves oc nu fonte render img).1.encontrou = false) ∧
    (detectar "a" [] ["a"] true true none renderNada imgPreta).1 = ⟨true, 0, true⟩ := by
  constructor
  · intro texto dados chaves oc nu fonte render img h
    refine ⟨?_, ?_, ?_⟩ <;> simp [detectar, h, deveDeletar]
  · decide

theorem claim7_witness :
    (detectar "x" [] ["x"] false false none renderNada imgPreta).1.encontrou = true :=
  (claim7_gate_pass_keeps.1 "x" [] ["x"] false false none renderNada imgPreta
    (by decide)).1

/-- C9: both pipelines keep exactly the OCR tokens whose trimmed text is
nonempty and whose confidence exceeds the threshold — threshold 0 for the
erase-all-text pipeline, 30 for the highlight-keywords pipeline (which also
stores the trimmed text with the box). -/
theorem claim9_token_filters (dados : List OcrToken) :
    blocosCobertos dados =
      dados.filter (fun d => decide (¬ ((pyStrip d.text) = "" ∨ d.conf ≤ 0))) ∧
    mkCoordenadas dados =
      (dados.filter (fun d => decide (¬ ((pyStrip d.text) = "" ∨ d.conf ≤ 30)))).map
        (fun d => ⟨(pyStrip d.text), d.left, d.top, d.width, d.height⟩) := by
  induction dados with
  | nil => exact ⟨rfl, rfl⟩
  | cons d rest ih =>
      have hgen : ∀ T : Int,
          (d.conf > T ∧ (pyStrip d.text) ≠ "") ↔ ¬ ((pyStrip d.text) = "" ∨ d.conf ≤ T) := by
        intro T
        rw [not_or]
        constructor
        · rintro ⟨h1, h2⟩; exact ⟨h2, by omega⟩
        · rintro ⟨h1, h2⟩; exact ⟨by omega, h1⟩
      constructor
      · simp only [blocosCobertos, List.filter_cons, decide_eq_true_eq]
        by_cases h : d.conf > 0 ∧ (pyStrip d.text) ≠ ""
        · rw [if_pos h, if_pos ((hgen 0).mp h), ih.1]
        · rw [if_neg h, if_neg (fun hc => h ((hgen 0).mpr hc)), ih.1]
      · simp only [mkCoordenadas, List.filter_cons, decide_eq_true_eq]
        by_cases h : d.conf > 30 ∧ (pyStrip d.text) ≠ ""
        · rw [if_pos h, if_pos ((hgen 30).mp h), List.map_cons, ih.2]
        · rw [if_neg h, if_neg (fun hc => h ((hgen 30).mpr hc)), ih.2]

/-- C4 (amended): for each emitted region the white fill precedes the
outline, and in the image state immediately after that region is drawn all
pixels strictly inside its bounds equal the erase color while the stroke-3
band at the 2px-outward boundary is red; draws for later regions (or the
numbering labels) may repaint such pixels afterwards. -/
theorem claim4_cover_amended (rs : List Region) (img0 : Image) (n : Nat)
    (r : Region) (hn : n < rs.length) (hr : rs.getD n padraoRegiao = r) :
    (∀ (s : Region) (im : Image),
      drawRegion true s im =
        outlineRect (s.xmin - 2) (s.ymin - 2) (s.xmax + 2) (s.ymax + 2) 3
          corVermelha (fillRect s.xmin s.ymin s.xmax s.ymax corBranca im)) ∧
    (∀ x y : Int, r.xmin < x → x < r.xmax → r.ymin < y → y < r.ymax →
      ((rs.take (n + 1)).foldl (fun im s => drawRegion true s im) img0) x y =
        corBranca) ∧
    (∀ x y : Int,
      (r.xmin - 2 ≤ x ∧ x ≤ r.xmax + 2 ∧ r.ymin - 2 ≤ y ∧ y ≤ r.ymax + 2) →
      (x ≤ r.xmin ∨ r.xmax ≤ x ∨ y ≤ r.ymin ∨ r.ymax ≤ y) →
      ((rs.take (n + 1)).foldl (fun im s => drawRegion true s im) img0) x y =
        corVermelha) := by
  have hfold :=
    foldl_take_succ (fun im s => drawRegion true s im) rs img0 n padraoRegiao hn
  refine ⟨fun s im => rfl, ?_, ?_⟩
  · intro x y h1 h2 h3 h4
    rw [hfold, hr]
    exact drawRegion_inside r _ x y h1 h2 h3 h4
  · intro x y hin hband
    rw [hfold, hr]
    exact drawRegion_band r _ x y hin hband

theorem claim4_witness :
    (([⟨10, 10, 30, 30⟩] : List Region).take 1).foldl
        (fun im s => drawRegion true s im) imgPreta 15 15 = corBranca :=
  (claim4_cover_amended [⟨10, 10, 30, 30⟩] imgPreta 0 ⟨10, 10, 30, 30⟩
    (by decide) (by decide)).2.1 15 15 (by decide) (by decide) (by decide) (by decide)

/-- C4 (counterexample to the claim as stated): with cover on and two
overlapping emitted regions, the pixel `(14, 20)` lies strictly inside the
first covered region's bounds, yet in the final image it is red — the second
region's outline repainted it — so not all pixels strictly inside a covered
region equal the erase color after processing. -/
theorem claim4_counterexample :
    allRegions (["aa", "bb"].map pyLower)
        (mkCoordenadas [⟨"aa", 80, 10, 10, 20, 20⟩, ⟨"bb", 80, 15, 10, 20, 20⟩]) =
      [⟨10, 10, 30, 30⟩, ⟨15, 10, 35, 30⟩] ∧
    ((10 : Int) < 14 ∧ (14 : Int) < 30 ∧ (10 : Int) < 20 ∧ (20 : Int) < 30) ∧
    (detectar "aa bb" [⟨"aa", 80, 10, 10, 20, 20⟩, ⟨"bb", 80, 15, 10, 20, 20⟩]
        ["aa", "bb"] true false none renderNada imgPreta).2.1 14 20 = corVermelha ∧
    corVermelha ≠ corBranca :=
  ⟨by decide, by decide, by decide, by decide⟩

/-- C5: numbering labels exactly the covered regions: with cover off (or
numbering off) no draw call is made; with cover and numbering on there is
one call per emitted region, the `i`-th (1-based, emission order) carrying
exactly the label `str(i)`, placed on the `i`-th region's recorded
descriptor. -/
theorem claim5_numbering_exact (fonte : Option (String → Int → Int × Int))
    (rs : List Region) :
    (∀ numerar : Bool, numberingCalls fonte (destaques false numerar rs) = []) ∧
    (∀ ocultar : Bool, numberingCalls fonte (destaques ocultar false rs) = []) ∧
    (numberingCalls fonte (destaques true true rs)).length = rs.length ∧
    (∀ i : Nat, i < rs.length →
      (numberingCalls fonte (destaques true true rs))[i]? =
        some (numberCallFor fonte (destaqueOf (rs.getD i padraoRegiao)) (i + 1))) ∧
    (∀ (d : Destaque) (n : Nat), (numberCallFor fonte d n).2 = Nat.repr n) := by
  have hdest : destaques true true rs = rs.map destaqueOf := by
    simp [destaques]
  refine ⟨?_, ?_, ?_, ?_, ?_⟩
  · intro numerar; simp [destaques, numberingCalls]
  · intro ocultar; simp [destaques, numberingCalls]
  · rw [hdest]
    cases rs with
    | nil => rfl
    | cons a t =>
        simp only [numberingCalls, List.map_cons, List.isEmpty_cons,
          Bool.false_eq_true, if_false]
        rw [numberingFrom_length]
        simp
  · intro i hi
    rw [hdest]
    have hne : ((rs.map destaqueOf).isEmpty) = false := by
      cases rs with
      | nil => simp at hi
      | cons a t => simp
    simp only [numberingCalls, hne, Bool.false_eq_true, if_false]
    rw [numberingFrom_getElem fonte 1 _ i (by simpa using hi)]
    have hmap : (rs.map destaqueOf).getD i padraoDestaque =
        destaqueOf (rs.getD i padraoRegiao) := by
      simp only [padraoDestaque]
      exact getD_map destaqueOf rs i padraoRegiao
    rw [hmap, Nat.add_comm 1 i]
  · intro d n
    cases fonte <;> rfl

theorem claim5_witness :
    (numberingCalls none (destaques true true [⟨0, 0, 10, 10⟩]))[0]? =
      some (numberCallFor none
        (destaqueOf (([⟨0, 0, 10, 10⟩] : List Region).getD 0 padraoRegiao)) 1) :=
  (claim5_numbering_exact none [⟨0, 0, 10, 10⟩]).2.2.2.1 0 (by decide)

/-- C6 (amended): the source performs no clamping.  If every WordBox
rectangle lies inside the image (nonnegative position, nonnegative extents,
right/bottom edges within the dimensions), then every emitted region has
`0 ≤ xmin ≤ W`, `0 ≤ xmax ≤ W` and `0 ≤ ymin ≤ ymax ≤ H`; single-word
regions additionally satisfy `xmin ≤ xmax`, but multi-word regions need not
(see the counterexample). -/
theorem claim6_bounds_amended (W H : Int) (chaves : List String)
    (coords : List WordBox)
    (hbox : ∀ c ∈ coords, 0 ≤ c.x ∧ c.x + c.largura ≤ W ∧ 0 ≤ c.y ∧
      c.y + c.altura ≤ H ∧ 0 ≤ c.largura ∧ 0 ≤ c.altura)
    (hph : ∀ p ∈ chaves, temEspaco p = true → pySplit p ≠ []) :
    (∀ r ∈ allRegions chaves coords,
      0 ≤ r.xmin ∧ r.xmin ≤ W ∧ 0 ≤ r.xmax ∧ r.xmax ≤ W ∧
      0 ≤ r.ymin ∧ r.ymin ≤ r.ymax ∧ r.ymax ≤ H) ∧
    (∀ p ∈ chaves, temEspaco p = false →
      ∀ r ∈ processPhrase p coords, r.xmin ≤ r.xmax ∧ r.ymin ≤ r.ymax) := by
  have hsingle : ∀ p : String, ∀ r ∈ singleRegions p coords,
      0 ≤ r.xmin ∧ r.xmin ≤ W ∧ 0 ≤ r.xmax ∧ r.xmax ≤ W ∧
      0 ≤ r.ymin ∧ r.ymin ≤ r.ymax ∧ r.ymax ≤ H ∧ r.xmin ≤ r.xmax := by
    intro p r hr
    rcases (mem_singleRegions p coords r).mp hr with ⟨c, hc, _, rfl⟩
    obtain ⟨b1, b2, b3, b4, b5, b6⟩ := hbox c hc
    simp only [boxRect]
    refine ⟨b1, by omega, by omega, b2, b3, by omega, b4, by omega⟩
  have hmulti : ∀ tokens : List String, tokens ≠ [] →
      ∀ r ∈ multiRegions tokens coords,
      0 ≤ r.xmin ∧ r.xmin ≤ W ∧ 0 ≤ r.xmax ∧ r.xmax ≤ W ∧
      0 ≤ r.ymin ∧ r.ymin ≤ r.ymax ∧ r.ymax ≤ H := by
    intro tokens htk r hr
    have hk : 1 ≤ tokens.length := List.length_pos.mpr htk
    rcases (mem_multiRegions tokens coords r).mp hr with ⟨i, hi, rfl⟩
    have hlen : i + tokens.length ≤ coords.length :=
      ((mem_multiStarts tokens coords i).mp hi).1
    obtain ⟨hxmin, hxmax, hyminle, ⟨j1, hj1, hymin⟩, hymaxge, ⟨j2, hj2, hymax⟩⟩ :=
      fraseBounds_spec coords i tokens.length hk
    have hmem : ∀ j : Nat, j < tokens.length → coords.getD (i + j) padrao ∈ coords := by
      intro j hj
      exact getD_mem coords (i + j) padrao (by omega)
    have hmem0 : coords.getD i padrao ∈ coords := by
      have h := hmem 0 (by omega)
      rwa [Nat.add_zero] at h
    obtain ⟨f1, f2, f3, f4, f5, f6⟩ := hbox _ hmem0
    obtain ⟨l1, l2, l3, l4, l5, l6⟩ :=
      hbox _ (getD_mem coords (i + tokens.length - 1) padrao (by omega))
    obtain ⟨a1, a2, a3, a4, a5, a6⟩ := hbox _ (hmem j1 hj1)
    obtain ⟨c1, c2, c3, c4, c5, c6⟩ := hbox _ (hmem j2 hj2)
    have h0le := hyminle 0 (by omega)
    have h0ge := hymaxge 0 (by omega)
    rw [Nat.add_zero] at h0le h0ge
    refine ⟨?_, ?_, ?_, ?_, ?_, ?_, ?_⟩ <;> omega
  constructor
  · intro r hr
    rcases (mem_allRegions chaves coords r).mp hr with ⟨p, hp, hrp⟩
    by_cases hsp : temEspaco p = true
    · simp only [processPhrase, hsp, if_true] at hrp
      exact hmulti (pySplit p) (hph p hp hsp) r hrp
    · have hf : temEspaco p = false := by
        cases hq : temEspaco p
        · rfl
        · exact absurd hq hsp
      simp only [processPhrase, hf, Bool.false_eq_true, if_false] at hrp
      obtain ⟨s1, s2, s3, s4, s5, s6, s7, _⟩ := hsingle p r hrp
      exact ⟨s1, s2, s3, s4, s5, s6, s7⟩
  · intro p _ hf r hr
    simp only [processPhrase, hf, Bool.false_eq_true, if_false] at hr
    obtain ⟨_, _, _, _, _, s6, _, s8⟩ := hsingle p r hr
    exact ⟨s8, s6⟩

theorem claim6_witness :
    0 ≤ (Region.mk 1 2 4 6).xmin ∧ (Region.mk 1 2 4 6).xmin ≤ 100 ∧
    0 ≤ (Region.mk 1 2 4 6).xmax ∧ (Region.mk 1 2 4 6).xmax ≤ 100 ∧
    0 ≤ (Region.mk 1 2 4 6).ymin ∧
    (Region.mk 1 2 4 6).ymin ≤ (Region.mk 1 2 4 6).ymax ∧
    (Region.mk 1 2 4 6).ymax ≤ 50 :=
  (claim6_bounds_amended 100 50 ["ab"] [⟨"ab", 1, 2, 3, 4⟩]
    (by decide) (by decide)).1 ⟨1, 2, 4, 6⟩ (by decide)

/-- C6 (counterexample to the claim as stated): a multi-word match whose
first box lies to the right of its last box (OCR reading order across a
line break) yields a region with `xmax < xmin` — the code performs no
clamping and the claimed `xmin ≤ xmax` fails, whatever the image size. -/
theorem claim6_counterexample :
    allRegions ["ab cd"] [⟨"ab", 100, 0, 10, 10⟩, ⟨"cd", 0, 0, 10, 10⟩] =
      [⟨100, 0, 10, 10⟩] ∧
    ((allRegions ["ab cd"] [⟨"ab", 100, 0, 10, 10⟩, ⟨"cd", 0, 0, 10, 10⟩]).getD 0
        padraoRegiao).xmax <
      ((allRegions ["ab cd"] [⟨"ab", 100, 0, 10, 10⟩, ⟨"cd", 0, 0, 10, 10⟩]).getD 0
        padraoRegiao).xmin :=
  ⟨by decide, by decide⟩

/-- C8: for a covered region the glyph size is
`max(12, min(width, height) // 2)`; with a font the label start is the
region center minus half the measured text extent, clamped so it never
starts above or left of the region's top-left corner plus the 2px margin;
without a font the label is drawn at the fixed offset `(-5, -10)` from the
center with no size adaptation. -/
theorem claim8_glyph_layout (r : Region) (n : Nat)
    (medida : String → Int → Int × Int) :
    tamanhoFonte (destaqueOf r) =
      max 12 ((min (r.xmax - r.xmin) (r.ymax - r.ymin)).fdiv 2) ∧
    (numberCallFor (some medida) (destaqueOf r) n).1 =
      (max ((destaqueOf r).x -
          ((medida (Nat.repr n) (tamanhoFonte (destaqueOf r))).1).fdiv 2)
        (r.xmin + 2),
       max ((destaqueOf r).y -
          ((medida (Nat.repr n) (tamanhoFonte (destaqueOf r))).2).fdiv 2)
        (r.ymin + 2)) ∧
    (r.xmin + 2 ≤ (numberCallFor (some medida) (destaqueOf r) n).1.1 ∧
     r.ymin + 2 ≤ (numberCallFor (some medida) (destaqueOf r) n).1.2) ∧
    numberCallFor none (destaqueOf r) n =
      (((destaqueOf r).x - 5, (destaqueOf r).y - 10), Nat.repr n) := by
  have hx : (destaqueOf r).x - (destaqueOf r).largura.fdiv 2 = r.xmin := by
    simp only [destaqueOf]
    omega
  have hy : (destaqueOf r).y - (destaqueOf r).altura.fdiv 2 = r.ymin := by
    simp only [destaqueOf]
    omega
  have hpos : (numberCallFor (some medida) (destaqueOf r) n).1 =
      (max ((destaqueOf r).x -
          ((medida (Nat.repr n) (tamanhoFonte (destaqueOf r))).1).fdiv 2)
        (r.xmin + 2),
       max ((destaqueOf r).y -
          ((medida (Nat.repr n) (tamanhoFonte (destaqueOf r))).2).fdiv 2)
        (r.ymin + 2)) := by
    simp only [numberCallFor]
    rw [← hx, ← hy]
  refine ⟨?_, hpos, ?_, rfl⟩
  · simp only [tamanhoFonte, destaqueOf]
    exact max_comm _ _
  · rw [hpos]
    exact ⟨le_max_right _ _, le_max_right _ _⟩

/-- C10: a per-image load/decode/OCR failure is caught inside that image's
processing call and reported as `(success = false, 0 occurrences, not
found)` for that image only; the batch maps over every input, so other
images are processed normally and the loop never aborts. -/
theorem claim10_batch_isolation (inputs : List (Except String (ImageData × Image)))
    (chaves : List String) (oc nu : Bool)
    (fonte : Option (String → Int → Int × Int))
    (render : (Int × Int) × String → Image → Image) :
    (processarImagens inputs chaves oc nu fonte render).length = inputs.length ∧
    (∀ (i : Nat) (e : String), inputs[i]? = some (.error e) →
      (processarImagens inputs chaves oc nu fonte render)[i]? =
        some ⟨false, 0, false⟩) ∧
    (∀ (i : Nat) (d : ImageData × Image), inputs[i]? = some (.ok d) →
      (processarImagens inputs chaves oc nu fonte render)[i]? =
        some (detectar d.1.textoCompleto d.1.dados chaves oc nu fonte render d.2).1) := by
  refine ⟨List.length_map _ _, ?_, ?_⟩
  · intro i e h
    simp only [processarImagens, List.getElem?_map, h, Option.map_some]
    rfl
  · intro i d h
    simp only [processarImagens, List.getElem?_map, h, Option.map_some]
    rfl

theorem claim10_witness :
    (processarImagens [Except.error "x", Except.ok (⟨"a", []⟩, imgPreta)] [] true true
        none renderNada)[0]? = some ⟨false, 0, false⟩ :=
  (claim10_batch_isolation [Except.error "x", Except.ok (⟨"a", []⟩, imgPreta)] []
    true true none renderNada).2.1 0 "x" rfl

end Anat
